import Mathlib

/-!
Verification of the smart_pdf_parser core pipeline.

This file gives a shallow embedding, in Lean, of the structure-building core
of the repository: section-tree assembly from an outline or from detected
headings (core/parser.py), contiguous page-range resolution with
parent-extension (PDFParser._calculate_section_page_ranges), body-content
population (PDFParser._populate_section_content), geometric table detection
(PDFParser._detect_tables and helpers), heading-level assignment
(StructureDetector._determine_heading_level and the classification loop of
PDFParser._analyze_font_statistics), the parse pipeline with its mutable
parser state (PDFParser.parse), and the pydantic Document validators
(models/document.py).

Numeric conventions: page numbers and geometric coordinates are modelled as
Int (Python ints / exact float coordinates), font sizes and thresholds as ℚ.
Python strings are Lean Strings; the Python string primitives used by the
code (strip, lower, split, isupper, startswith, len) are re-implemented on
the underlying character list so that they compute by kernel reduction.
-/

namespace PdfParse

/-! ### Python string primitives -/

/-- Python str.strip of a character list: drop whitespace at both ends. -/
def stripChars (cs : List Char) : List Char :=
  ((cs.dropWhile Char.isWhitespace).reverse.dropWhile Char.isWhitespace).reverse

/-- Python str.strip. -/
def pyStrip (s : String) : String := ⟨stripChars s.data⟩

/-- Python str.lower (ASCII). -/
def pyLower (s : String) : String := ⟨s.data.map Char.toLower⟩

/-- Python len on a string: number of characters. -/
def pyLen (s : String) : Nat := s.data.length

/-- Python s.split(" ")[0]: the characters before the first space. -/
def firstTok (s : String) : List Char := s.data.takeWhile (· ≠ ' ')

/-- Python str.startswith, on strings rebuilt from character lists. -/
def startsW (s pre : String) : Bool := pre.data.isPrefixOf s.data

/-- Python str.isupper (ASCII): some cased character, and no lowercase one. -/
def pyIsUpper (s : String) : Bool :=
  s.data.any (fun c => c.isAlpha) && s.data.all (fun c => !c.isAlpha || c.isUpper)

/-- Python "sep".join(parts). -/
def pyJoin (sep : String) (parts : List String) : String :=
  match parts with
  | [] => ""
  | p :: ps => ps.foldl (fun acc q => ⟨acc.data ++ sep.data ++ q.data⟩) p

/-! ### Data model (models/document.py) -/

/-- Table model (pydantic Table): caption, page, position, cell data. -/
structure Tbl where
  caption : Option String
  page : Nat
  pos : Int × Int × Int × Int
  data : List (List String)
deriving DecidableEq, Repr

/-- Section model (pydantic Section): title, level, pages, content, tables,
subsections.  A rose tree; subsections nest. -/
inductive Sec where
  | mk (title : String) (level : Int) (pages : List Int) (content : String)
       (tables : List Tbl) (subs : List Sec)
deriving Repr

def Sec.title : Sec → String
  | .mk t _ _ _ _ _ => t

def Sec.level : Sec → Int
  | .mk _ l _ _ _ _ => l

def Sec.pages : Sec → List Int
  | .mk _ _ p _ _ _ => p

def Sec.content : Sec → String
  | .mk _ _ _ c _ _ => c

def Sec.tables : Sec → List Tbl
  | .mk _ _ _ _ tb _ => tb

def Sec.subs : Sec → List Sec
  | .mk _ _ _ _ _ s => s

/-- Document model (pydantic Document): title, page count, top sections. -/
structure DocM where
  title : String
  pages : Int
  sections : List Sec
deriving Repr

/-! ### Small list utilities shared by the embedded code -/

/-- Python list(range(a, b + 1)): the integers a, a+1, ..., b. -/
def intRange (a b : Int) : List Int :=
  (List.range (b + 1 - a).toNat).map (fun k : Nat => a + (k : Int))

/-- Python min over a list of ints (0 on the empty list, which the source
never evaluates). -/
def minPages : List Int → Int
  | [] => 0
  | x :: xs => xs.foldl min x

/-- Python max over a list of ints (0 on the empty list). -/
def maxPages : List Int → Int
  | [] => 0
  | x :: xs => xs.foldl max x

/-- Stable insertion of x into a list: x goes after every element t with
leB t x, mirroring the stability of Python sorts. -/
def stIns (leB : α → α → Bool) (x : α) : List α → List α
  | [] => [x]
  | t :: ts => if leB t x then t :: stIns leB x ts else x :: t :: ts

/-- Stable sort by the boolean relation leB (Python list.sort is stable; any
stable sort by the same key produces the same list). -/
def stSort (leB : α → α → Bool) (l : List α) : List α :=
  l.foldl (fun acc x => stIns leB x acc) []

/-- Remove adjacent duplicates of a sorted list. -/
def dedupAdj : List Int → List Int
  | [] => []
  | [a] => [a]
  | a :: b :: r => if a = b then dedupAdj (b :: r) else a :: dedupAdj (b :: r)

/-- Python sorted(set(l)): strictly increasing enumeration of l's members. -/
def sortedDedup (l : List Int) : List Int :=
  dedupAdj (stSort (fun a b : Int => a ≤ b) l)

/-- Boolean subset test between page lists (Python set.issubset). -/
def pagesSub (xs ys : List Int) : Bool :=
  xs.all (fun p => decide (p ∈ ys))

/-- Union of the pages of a list of sections, as the concatenated list
(membership is what the code tests). -/
def flatPages (ss : List Sec) : List Int := ss.flatMap Sec.pages

/-! ### Page-range resolution (PDFParser._calculate_section_page_ranges,
core/parser.py lines 543-583; identical code in core/structure.py 429-469)

The Python routine, per sibling list: sort the list in place by min(pages);
assign to sibling i the contiguous range from its own min page up to the next
sibling's min page minus one (the document's last page for the final
sibling); recurse into subsections with the same total page count; then, if
the union of the (now resolved) subsection pages is not a subset of the
section's own pages, extend the section's pages by that union
(sorted(set(...))), never shrinking any child.

Subtree resolution never reads sibling or parent state, so the embedding
resolves each node's subsections first (resolveEachS) and then runs the
sibling sweep (assignSorted over the stably min-sorted list) at each level;
this reordering computes exactly the Python result. -/

/-- Sort key le-test used by sections.sort(key=lambda s: min(s.pages)). -/
def secMinLe (a b : Sec) : Bool := decide (minPages a.pages ≤ minPages b.pages)

/-- Sort a sibling list by minimum page, stably. -/
def stSortSec (ss : List Sec) : List Sec := stSort secMinLe ss

/-- Assign to one section its contiguous range [min pages, endP], then apply
the parent-extension step against its already-resolved subsections. -/
def applyRange (endP : Int) : Sec → Sec
  | .mk t l p c tb subs =>
    let ps := intRange (minPages p) endP
    if subs.isEmpty then .mk t l ps c tb subs
    else
      let subPs := flatPages subs
      if pagesSub subPs ps then .mk t l ps c tb subs
      else .mk t l (sortedDedup (ps ++ subPs)) c tb subs

/-- Sweep over an already min-sorted sibling list: sibling i ends one page
before sibling i+1 starts; the last sibling ends at the total page count. -/
def assignSorted (total : Int) : List Sec → List Sec
  | [] => []
  | [s] => [applyRange total s]
  | s :: t :: rest => applyRange (minPages t.pages - 1) s :: assignSorted total (t :: rest)

mutual
/-- Resolve the subsections (and deeper levels) of every section in a list,
leaving each listed section's own pages untouched. -/
def resolveEachF (total : Int) : List Sec → List Sec
  | [] => []
  | s :: ss => resolveEachS total s :: resolveEachF total ss

/-- Resolve the subtree strictly below one section. -/
def resolveEachS (total : Int) : Sec → Sec
  | .mk t l p c tb subs =>
      .mk t l p c tb (assignSorted total (stSortSec (resolveEachF total subs)))
end

/-- Full embedding of _calculate_section_page_ranges applied to a sibling
list with the document's total page count. -/
def resolveForest (total : Int) (ss : List Sec) : List Sec :=
  assignSorted total (stSortSec (resolveEachF total ss))

/-! ### The parent/child containment invariant (claim C2) -/

mutual
/-- Containment check over a forest: every section of the forest contains
the pages of each of its direct subsections. -/
def subsetOkF : List Sec → Bool
  | [] => true
  | s :: ss => subsetOkS s && subsetOkF ss

/-- Containment check at one node and recursively below it. -/
def subsetOkS : Sec → Bool
  | .mk _ _ p _ _ subs =>
      (subs.all (fun c => pagesSub c.pages p)) && subsetOkF subs
end

/-! ### The sibling-partition property (claim C3) -/

/-- One section's pages form a nonempty contiguous ascending range. -/
def contigB (s : Sec) : Bool :=
  !s.pages.isEmpty && (s.pages == intRange (minPages s.pages) (maxPages s.pages))

/-- Sibling lists partition a span: each member is a nonempty contiguous
range, adjacent members abut (last page + 1 = next first page), and the
final member ends at the total page count. -/
def sibChainB (total : Int) : List Sec → Bool
  | [] => true
  | [s] => contigB s && (maxPages s.pages == total)
  | s :: t :: rest =>
      contigB s && (maxPages s.pages + 1 == minPages t.pages) && sibChainB total (t :: rest)

/-! ### Stack-based tree assembly
(PDFParser._create_structure_from_toc, core/parser.py lines 379-425, and
PDFParser._create_structure_from_headings, lines 466-500)

The Python code keeps a stack of section objects that are already attached
into the tree, and appends children to the stack top in place.  The
embedding uses a zipper: a stack of frames, each an in-progress section with
its children collected so far; a frame's section is attached to the frame
below it (or to the top-level list) when the frame is popped.  This performs
exactly the attachments the Python code performs eagerly. -/

/-- A section under construction on the ancestor stack. -/
structure Frame where
  title : String
  level : Int
  page : Int
  kids : List Sec
deriving Repr

/-- Finish a frame into a Section value: pages initialised to the single
anchor page, children in arrival order. -/
def closeFrame (f : Frame) : Sec := .mk f.title f.level [f.page] "" [] f.kids

/-- Close the section s into the next frame down, then close the whole
remaining stack, appending completed top-level sections to tops. -/
def closeInto (tops : List Sec) (s : Sec) : List Frame → List Sec
  | [] => tops ++ [s]
  | g :: rest => closeInto tops (closeFrame { g with kids := g.kids ++ [s] }) rest

/-- Close every frame of the stack (used at the end of assembly, and when a
level-1 entry discards the stack). -/
def closeAll (tops : List Sec) : List Frame → List Sec
  | [] => tops
  | f :: rest => closeInto tops (closeFrame f) rest

/-- Pop n frames from the stack, attaching each closed frame to the frame
below it, or to the top-level list when it is the last frame. -/
def popN : Nat → List Sec → List Frame → List Sec × List Frame
  | 0, tops, st => (tops, st)
  | _ + 1, tops, [] => (tops, [])
  | n + 1, tops, [f] => popN n (tops ++ [closeFrame f]) []
  | n + 1, tops, f :: g :: r => popN n tops ({ g with kids := g.kids ++ [closeFrame f] } :: r)

/-- Pop while the stack length is at least lvl (the outline builder's rule:
while len(section_stack) >= level). -/
def popToLen (lvl : Int) (tops : List Sec) (stack : List Frame) :
    List Sec × List Frame :=
  popN (stack.length - (lvl - 1).toNat) tops stack

/-- Pop while the top frame's level is at least lvl (the heading builder's
rule: while section_stack and section_stack[-1].level >= level).  Popping a
frame never changes the level of the frame below it, so the pop count equals
the length of the maximal prefix with level at least lvl. -/
def popWhileGe (lvl : Int) (tops : List Sec) (stack : List Frame) :
    List Sec × List Frame :=
  popN (stack.takeWhile (fun f => decide (f.level ≥ lvl))).length tops stack

/-- One outline entry processed by _create_structure_from_toc: clamp the
level and page to at least 1, strip the title and skip the entry when blank,
then reset the stack on level 1 or pop by stack length and push. -/
def tocStepA (st : List Sec × List Frame) (e : Int × String × Int) :
    List Sec × List Frame :=
  let lvl : Int := max 1 e.1
  let t := pyStrip e.2.1
  if t = "" then st
  else
    let fr : Frame := ⟨t, lvl, max 1 e.2.2, []⟩
    if lvl = 1 then (closeAll st.1 st.2, [fr])
    else
      let p := popToLen lvl st.1 st.2
      (p.1, fr :: p.2)

/-- One heading entry processed by _create_structure_from_headings: no field
normalisation; reset the stack on level 1 or pop by frame level and push. -/
def headStepA (st : List Sec × List Frame) (e : Int × String × Int) :
    List Sec × List Frame :=
  let fr : Frame := ⟨e.2.1, e.1, e.2.2, []⟩
  if e.1 = 1 then (closeAll st.1 st.2, [fr])
  else
    let p := popWhileGe e.1 st.1 st.2
    (p.1, fr :: p.2)

/-- Tree assembly of the outline builder on (level, title, page) entries. -/
def tocAssemble (es : List (Int × String × Int)) : List Sec :=
  let st := es.foldl tocStepA ([], [])
  closeAll st.1 st.2

/-- Tree assembly of the heading builder on (level, title, page) entries. -/
def headAssemble (es : List (Int × String × Int)) : List Sec :=
  let st := es.foldl headStepA ([], [])
  closeAll st.1 st.2

/-! ### Text blocks, heading candidates, content population -/

/-- An extracted text block (parser.py _extract_text_blocks): text, bbox,
dominant font size, bold/italic flags. -/
structure Block where
  text : String
  x0 : Int
  y0 : Int
  x1 : Int
  y1 : Int
  fontSize : ℚ
  isBold : Bool
  isItalic : Bool
deriving Repr

/-- A heading candidate recorded by _analyze_font_statistics. -/
structure Heading where
  text : String
  level : Nat
  x0 : Int
  y0 : Int
  x1 : Int
  y1 : Int
  fontSize : ℚ
  isBold : Bool
deriving Repr

/-- Body text collected for one section by _populate_section_content
(core/parser.py lines 585-634): for each resolved page, blocks whose text
equals the section's own title are skipped; on a page shared with
subsections, only the section's first page contributes, and only blocks
above the topmost subsection-heading position. -/
def collectContent (tb : Int → List Block) (hc : Int → List Heading)
    (s : Sec) : List String :=
  s.pages.flatMap (fun pg =>
    let subPs := s.subs.flatMap Sec.pages
    if pg ∈ subPs then
      if pg = minPages s.pages then
        let hYs := ((hc pg).filter (fun h => h.text ≠ s.title)).map (fun h => h.y0)
        (tb pg).filterMap (fun b =>
          if b.text = s.title then none
          else if hYs.isEmpty || decide (b.y0 < minPages hYs) then some b.text
          else none)
      else []
    else (tb pg).filterMap (fun b => if b.text = s.title then none else some b.text))

/-- The content string assigned to one section: blocks joined by a blank
line, stripped. -/
def contentOf (tb : Int → List Block) (hc : Int → List Heading) (s : Sec) :
    String :=
  pyStrip (pyJoin "\n\n" (collectContent tb hc s))

mutual
/-- Assign content strings throughout a forest. -/
def populateF (tb : Int → List Block) (hc : Int → List Heading) :
    List Sec → List Sec
  | [] => []
  | s :: ss => populateS tb hc s :: populateF tb hc ss

/-- Assign content strings to one section and its subtree. -/
def populateS (tb : Int → List Block) (hc : Int → List Heading) : Sec → Sec
  | .mk t l p c tbl subs =>
      .mk t l p (contentOf tb hc (Sec.mk t l p c tbl subs)) tbl
        (populateF tb hc subs)
end

/-- PDFParser._create_structure_from_toc end to end: assemble the tree from
the outline, resolve page ranges when any section exists, populate content. -/
def tocStructure (toc : List (Int × String × Int)) (total : Int)
    (tb : Int → List Block) (hc : Int → List Heading) : List Sec :=
  let secs := tocAssemble toc
  let secs2 := if secs.isEmpty then secs else resolveForest total secs
  populateF tb hc secs2

/-- Heading candidates flattened with their page numbers, in page order. -/
def headEntries (hcL : List (Nat × List Heading)) : List (Nat × Heading) :=
  hcL.flatMap (fun e => e.2.map (fun h => (e.1, h)))

/-- Sort key of the heading builder: (page, vertical position), ascending. -/
def headLe (a b : Nat × Heading) : Bool :=
  decide (a.1 < b.1) || (a.1 == b.1 && decide (a.2.y0 ≤ b.2.y0))

/-- PDFParser._create_structure_from_headings end to end. -/
def headingStructure (hcL : List (Nat × List Heading)) (total : Int)
    (tb : Int → List Block) (hc : Int → List Heading) : List Sec :=
  let allH := stSort headLe (headEntries hcL)
  if allH.isEmpty then []
  else
    let es := allH.map (fun e => ((e.2.level : Int), e.2.text, (e.1 : Int)))
    let secs := headAssemble es
    let secs2 := if secs.isEmpty then secs else resolveForest total secs
    populateF tb hc secs2

/-! ### Heading level assignment

Two implementations exist in the repository: the classification loop inside
PDFParser._analyze_font_statistics (core/parser.py lines 266-315, the one
the parse pipeline runs) and StructureDetector._determine_heading_level
(core/structure.py lines 389-427).  Both are embedded. -/

/-- Python string concatenation, on the character lists. -/
def pyAppend (a b : String) : String := ⟨a.data ++ b.data⟩

/-- Greedy matcher for the repeated regex group (\.\d+)*: consume maximal
repetitions of a dot followed by at least one digit; return the repetition
count and the rest.  Fuel-driven; callers pass the input length. -/
def repsDots : Nat → List Char → Nat × List Char
  | 0, cs => (0, cs)
  | fuel + 1, cs =>
    match cs with
    | '.' :: rest =>
      if (rest.takeWhile Char.isDigit).isEmpty then (0, cs)
      else
        let r := repsDots fuel (rest.dropWhile Char.isDigit)
        (r.1 + 1, r.2)
    | _ => (0, cs)

/-- Matcher for re.match of the pattern in _determine_heading_level,
optional whitespace, digits, repeated dot-digit groups, then either a dot
followed by one whitespace character or a bare whitespace character.  When
the pattern matches, returns the number of dots inside the matched prefix
group(0) (the Python code counts the terminator dot too).  Giving back
repetitions or digits always leaves a digit or a dot where the terminator
needs other characters, so the greedy parse equals the backtracking one. -/
def numericDots (s : String) : Option Nat :=
  let r1 := s.data.dropWhile Char.isWhitespace
  if (r1.takeWhile Char.isDigit).isEmpty then none
  else
    let r2 := r1.dropWhile Char.isDigit
    let r := repsDots r2.length r2
    match r.2 with
    | '.' :: w :: _ => if w.isWhitespace then some (r.1 + 1) else none
    | '.' :: [] => none
    | w :: _ => if w.isWhitespace then some r.1 else none
    | [] => none

/-- StructureDetector._determine_heading_level (core/structure.py 389-427):
font-size ladder, then numbered-heading override (segment count capped at
5), then a leading "appendix" forces level 1. -/
def detHeadingLevel (text0 : String) (fontSize : ℚ) (isBold : Bool)
    (threshold : ℚ) : Nat :=
  let text := pyStrip text0
  let lvl1 : Nat :=
    if fontSize ≥ threshold * 1.5 then 1
    else if fontSize ≥ threshold * 1.25 then 2
    else if fontSize ≥ threshold then 3
    else if isBold then 4
    else 5
  let lvl2 :=
    match numericDots text with
    | some d => min (d + 1) 5
    | none => lvl1
  if startsW (pyLower text) "appendix" then 1 else lvl2

/-- The size ladder exactly as the specification words it: 1 at 1.5 times
the threshold, 2 at 1.25 times, 3 at the threshold, 4 for bold-only, else
5. -/
def specSizeLevel (fontSize : ℚ) (isBold : Bool) (threshold : ℚ) : Nat :=
  if fontSize ≥ 1.5 * threshold then 1
  else if fontSize ≥ 1.25 * threshold then 2
  else if fontSize ≥ threshold then 3
  else if isBold then 4
  else 5

/-- The claimed level function, following the specification's words: a
leading "Appendix" token forces level 1; otherwise a numeric prefix
overrides the size-derived level with its dot count plus one, capped at 5;
otherwise the size ladder decides. -/
def specHeadingLevel (text0 : String) (fontSize : ℚ) (isBold : Bool)
    (threshold : ℚ) : Nat :=
  let text := pyStrip text0
  if startsW (pyLower text) "appendix" then 1
  else
    match numericDots text with
    | some d => min (d + 1) 5
    | none => specSizeLevel fontSize isBold threshold

/-- Python \w test (ASCII): letters, digits, underscore. -/
def isWordChar (c : Char) : Bool := c.isAlphanum || c = '_'

/-- Matcher for re.match of the numbered-heading pattern used by
PDFParser._analyze_font_statistics (digits, repeated dot-digit groups, a
required trailing dot, whitespace, then a word character). -/
def pNumbered (s : String) : Bool :=
  let cs := s.data
  if (cs.takeWhile Char.isDigit).isEmpty then false
  else
    let r2 := cs.dropWhile Char.isDigit
    let r := repsDots r2.length r2
    match r.2 with
    | '.' :: rest =>
      if (rest.takeWhile Char.isWhitespace).isEmpty then false
      else
        match rest.dropWhile Char.isWhitespace with
        | c :: _ => isWordChar c
        | [] => false
    | _ => false

/-- The heading-candidate classification of one block inside
PDFParser._analyze_font_statistics (core/parser.py 266-315): the font-size
rule, the numbered-heading rule, the short-bold rule, and the all-caps rule,
applied in that order, each later rule keeping an already-assigned nonzero
level. -/
def classifyBlock (threshold : ℚ) (b : Block) : Option Heading :=
  let s1 : Bool × Nat :=
    if b.fontSize ≥ threshold then
      (true,
        if b.fontSize ≥ threshold * 1.5 then 1
        else if b.fontSize ≥ threshold * 1.25 then 2
        else if b.isBold then 3
        else 4)
    else (false, 0)
  let s2 :=
    if pNumbered b.text then (true, min ((firstTok b.text).count '.' + 1) 5)
    else s1
  let s3 :=
    if b.isBold && decide (pyLen b.text < 100) && !(pyStrip b.text == "") then
      (true, if s2.2 = 0 then 3 else s2.2)
    else s2
  let s4 :=
    if pyIsUpper b.text && decide (3 < pyLen b.text) && decide (pyLen b.text < 50) then
      (true, if s3.2 = 0 then 3 else s3.2)
    else s3
  if s4.1 then
    some ⟨b.text, s4.2, b.x0, b.y0, b.x1, b.y1, b.fontSize, b.isBold⟩
  else none

/-! ### Table detection (PDFParser._detect_tables and helpers,
core/parser.py lines 693-898)

Coordinates are Int; the text inside a clip rectangle is supplied by an
opaque function, since text extraction from the page is the external page
provider's job. -/

/-- A classified line segment (x0, y0, x1, y1). -/
structure Seg where
  x0 : Int
  y0 : Int
  x1 : Int
  y1 : Int
deriving DecidableEq, Repr

/-- A drawing primitive as _detect_tables consumes it: only entries of type
"l" participate; everything else is ignored by the parser's detector. -/
inductive Drawing where
  | line (p1x p1y p2x p2y : Int)
  | other
deriving DecidableEq, Repr

/-- Classify drawings into horizontal and vertical segments (lines with the
orthogonal extent below 2), normalising the along-axis coordinates. -/
def hvSplit : List Drawing → List Seg × List Seg
  | [] => ([], [])
  | d :: ds =>
    let r := hvSplit ds
    match d with
    | .line x0 y0 x1 y1 =>
      if (y1 - y0).natAbs < 2 then (⟨min x0 x1, y0, max x0 x1, y1⟩ :: r.1, r.2)
      else if (x1 - x0).natAbs < 2 then (r.1, ⟨x0, min y0 y1, x1, max y0 y1⟩ :: r.2)
      else r
    | .other => r

/-- PDFParser._group_lines_by_position: sort by the grouping coordinate,
then chain segments whose coordinate is within the tolerance of the
previously added segment. -/
def groupLines (key : Seg → Int) (tol : Int) (lines : List Seg) :
    List (List Seg) :=
  match stSort (fun a b => decide (key a ≤ key b)) lines with
  | [] => []
  | l0 :: rest =>
    let st := rest.foldl
      (fun (acc : List (List Seg) × List Seg × Seg) l =>
        if (key l - key acc.2.2).natAbs ≤ tol then (acc.1, acc.2.1 ++ [l], l)
        else (acc.1 ++ [acc.2.1], [l], l))
      ([], [l0], l0)
    st.1 ++ [st.2.1]

/-- Count approximate crossings between a horizontal and a vertical group
(PDFParser._find_table_candidates, inner loops). -/
def interCount (hg vg : List Seg) : Nat :=
  hg.foldl
    (fun acc h =>
      acc + (vg.filter (fun v =>
        decide (h.x0 ≤ v.x0) && decide (v.x0 ≤ h.x1) &&
        decide (v.y0 ≤ h.y0) && decide (h.y0 ≤ v.y1))).length)
    0

/-- PDFParser._find_table_candidates: all (row-group, column-group) pairs
spanning a positive rectangle with at least min(|rows|, |cols|)
crossings. -/
def findCandidates (hGs vGs : List (List Seg)) :
    List (List Seg × List Seg) :=
  hGs.flatMap (fun hg =>
    vGs.filterMap (fun vg =>
      let hSpan := maxPages (hg.map Seg.x1) - minPages (hg.map Seg.x0)
      let vSpan := maxPages (vg.map Seg.y1) - minPages (vg.map Seg.y0)
      if hSpan > 0 && vSpan > 0 && decide (interCount hg vg ≥ min hg.length vg.length)
      then some (hg, vg)
      else none))

/-- PDFParser._extract_table_data: distinct sorted y positions of the row
lines and x positions of the column lines delimit the cell rectangles; a row
is kept only when some cell text is nonempty. -/
def extractTableData (cellText : Int × Int × Int × Int → String)
    (hg vg : List Seg) : List (List String) :=
  let hPos := sortedDedup (hg.map Seg.y0)
  let vPos := sortedDedup (vg.map Seg.x0)
  if hPos.length < 2 || vPos.length < 2 then []
  else
    (List.range (hPos.length - 1)).filterMap (fun i =>
      let row := (List.range (vPos.length - 1)).map (fun j =>
        pyStrip (cellText (vPos.getD j 0, hPos.getD i 0,
                           vPos.getD (j + 1) 0, hPos.getD (i + 1) 0)))
      if row.any (fun c => c ≠ "") then some row else none)

/-- PDFParser._detect_tables for one page: classify segments, group them
with tolerance 5, pair the groups into candidates, extract each candidate's
cell grid, and keep grids with at least 2 rows whose first row has at least
2 columns (min_table_rows = min_table_cols = 2 in PDFParser.__init__). -/
def detectTables (cellText : Int × Int × Int × Int → String)
    (drawings : List Drawing) (pageNum : Nat) : List Tbl :=
  let hv := hvSplit drawings
  if hv.1.length ≥ 2 then
    let hGs := groupLines Seg.y0 5 hv.1
    let vGs := groupLines Seg.x0 5 hv.2
    if hGs.length ≥ 2 && vGs.length ≥ 2 then
      (findCandidates hGs vGs).filterMap (fun c =>
        if c.1.length < 2 || c.2.length < 2 then none
        else
          let x0 := minPages (c.2.map Seg.x0)
          let y0 := minPages (c.1.map Seg.y0)
          let x1 := maxPages (c.2.map Seg.x1)
          let y1 := maxPages (c.1.map Seg.y1)
          let td := extractTableData cellText c.1 c.2
          if !td.isEmpty && decide (td.length ≥ 2) &&
             decide ((td.headD []).length ≥ 2) then
            some ⟨some (pyAppend "Table on page " (toString pageNum)),
                  pageNum, (x0, y0, x1, y1), td⟩
          else none)
    else []
  else []

/-! ### The parse pipeline (PDFParser.parse and its helpers)

The embedding makes the mutable parser attributes explicit.  Of the
attributes set in PDFParser.__init__, doc_title, page_count and
text_blocks_by_page are unconditionally overwritten by every parse call
before being read, so they carry no observable state between calls; the
observable cross-call state is toc_available (never reset once set),
font_stats and heading_candidates (both left untouched by
_analyze_font_statistics's early return when the document has no text, and
untouched when detect_headings is off). -/

/-- Parser configuration (PDFParser.__init__ arguments plus the
extract_title flag of parse). -/
structure Config where
  detectTables : Bool
  useToc : Bool
  detectHeadings : Bool
  minHeadingSize : ℚ
  headingSizeThreshold : ℚ
  extractTitle : Bool

/-- Observable mutable parser state carried across parse invocations. -/
structure PState where
  tocAvailable : Bool
  fontStats : Option (ℚ × ℚ)
  headingCands : List (Nat × List Heading)

/-- The input primitives of one document, as delivered by the external page
provider: page count, metadata title, the text lines of the first page, the
file name, the outline, per-page text blocks and drawings, per-page clipped
text extraction, and the encryption flags validate_pdf_file checks. -/
structure PdfInput where
  pageCount : Nat
  metaTitle : String
  firstPageLines : List String
  fileName : String
  toc : List (Int × String × Int)
  blocks : List (List Block)
  drawings : List (List Drawing)
  cellText : Nat → Int × Int × Int × Int → String
  encrypted : Bool
  decrypted : Bool

instance : Inhabited Sec := ⟨.mk "" 0 [] "" [] []⟩

/-- Fatal parse errors (utils/exceptions.py PDFInputError as raised by
validate_pdf_file). -/
inductive PErr where
  | inputErr (msg : String)
deriving DecidableEq, Repr

/-- The document-level checks of validate_pdf_file
(utils/validators.py lines 56-69): a zero page count raises PDFInputError
before anything else is looked at; an encrypted, undecrypted file raises
next. -/
def validateInput (x : PdfInput) : Except PErr Unit :=
  if x.pageCount = 0 then .error (.inputErr "PDF file contains no pages")
  else if x.encrypted && !x.decrypted then
    .error (.inputErr "PDF file is encrypted and requires a password")
  else .ok ()

/-- PDFParser._extract_document_title: metadata title when nonblank, else
the first nonblank line of the first page truncated to 100 characters, else
the file name. -/
def extractDocTitle (x : PdfInput) : String :=
  if x.metaTitle ≠ "" && pyStrip x.metaTitle ≠ "" then pyStrip x.metaTitle
  else
    match (x.firstPageLines.map pyStrip).filter (fun ln => ln ≠ "") with
    | ln :: _ =>
      if pyLen ln > 100 then pyAppend ⟨ln.data.take 100⟩ "..." else ln
    | [] => x.fileName

/-- PDFParser._extract_text_blocks for one page: drop blocks with empty
text, sort stably by (top, left). -/
def extractBlocksPg (bs : List Block) : List Block :=
  stSort (fun a b => decide (a.y0 < b.y0) || (a.y0 == b.y0 && decide (a.x0 ≤ b.x0)))
    (bs.filter (fun b => b.text ≠ ""))

/-- Text blocks of every page, in page order. -/
def extractAllBlocks (x : PdfInput) : List (List Block) :=
  (List.range x.pageCount).map (fun i => extractBlocksPg (x.blocks.getD i []))

/-- Page-indexed lookup into the per-page block lists (pages are
1-based). -/
def tbLookup (tbp : List (List Block)) (pg : Int) : List Block :=
  if pg ≥ 1 then tbp.getD (pg - 1).toNat [] else []

/-- Lookup of heading candidates by page (dict .get(page_num, [])). -/
def hcLookup (hc : List (Nat × List Heading)) (pg : Int) : List Heading :=
  match hc.find? (fun e => (e.1 : Int) == pg) with
  | some e => e.2
  | none => []

/-- Upsert into the insertion-ordered tally of total text length per font
size (the defaultdict of _analyze_font_statistics). -/
def tallyUpsert (t : List (ℚ × Nat)) (k : ℚ) (n : Nat) : List (ℚ × Nat) :=
  match t with
  | [] => [(k, n)]
  | e :: r => if e.1 = k then (e.1, e.2 + n) :: r else e :: tallyUpsert r k n

/-- Python max(items, key=...) keeps the first entry among ties. -/
def argmaxFirst : List (ℚ × Nat) → ℚ × Nat
  | [] => (0, 0)
  | e :: r => r.foldl (fun best z => if z.2 > best.2 then z else best) e

/-- Python max on two rationals. -/
def pyMaxQ (a b : ℚ) : ℚ := if b > a then b else a

/-- PDFParser._analyze_font_statistics: with no text at all, return early
leaving font_stats and heading_candidates untouched; otherwise store the
normal size (font size with greatest total text length), the heading
threshold, and the per-page heading candidates. -/
def analyzeFont (cfg : Config) (tbp : List (List Block)) (s : PState) :
    PState :=
  if (tbp.flatten).isEmpty then s
  else
    let tally := (tbp.flatten).foldl
      (fun t b => tallyUpsert t b.fontSize (pyLen b.text)) []
    let normal := (argmaxFirst tally).1
    let threshold := pyMaxQ cfg.minHeadingSize (normal * cfg.headingSizeThreshold)
    let hc := (List.range tbp.length).filterMap (fun i =>
      let hs := (tbp.getD i []).filterMap (classifyBlock threshold)
      if hs.isEmpty then none else some (i + 1, hs))
    ⟨s.tocAvailable, some (normal, threshold), hc⟩

/-- The conditional font-statistics step of PDFParser.parse (lines 93-94):
_analyze_font_statistics runs only when heading detection is on. -/
def analyzeStep (cfg : Config) (tbp : List (List Block)) (s : PState) :
    PState :=
  if cfg.detectHeadings then analyzeFont cfg tbp s else s

/-- PDFParser._create_simple_structure: one level-1 section per page whose
content is the page's blocks joined by blank lines. -/
def simpleSecs (n : Nat) (tbp : List (List Block)) : List Sec :=
  (List.range n).map (fun i =>
    let content := pyStrip ((tbp.getD i []).foldl
      (fun acc b => pyAppend acc (pyAppend b.text "\n\n")) "")
    Sec.mk (pyAppend "Page " (toString (i + 1))) 1 [(i : Int) + 1] content [] [])

/-- PDFParser._create_document_structure: prefer the outline (setting
toc_available) when use_toc is on and the outline is nonempty; otherwise
fall back to detected headings when toc_available has never been set,
heading detection is on and candidates exist; otherwise, when still no
sections, the flat page-based structure. -/
def createDocSecs (cfg : Config) (x : PdfInput) (tbp : List (List Block))
    (s : PState) : PState × List Sec :=
  let c := cfg.useToc && !x.toc.isEmpty
  let s1 : PState := ⟨c || s.tocAvailable, s.fontStats, s.headingCands⟩
  let secs1 :=
    if c then
      tocStructure x.toc (x.pageCount : Int) (tbLookup tbp) (hcLookup s.headingCands)
    else []
  let secs2 :=
    if !s1.tocAvailable && cfg.detectHeadings && !s1.headingCands.isEmpty then
      headingStructure s1.headingCands (x.pageCount : Int) (tbLookup tbp)
        (hcLookup s1.headingCands)
    else secs1
  let secs3 := if secs2.isEmpty then simpleSecs x.pageCount tbp else secs2
  (s1, secs3)

mutual
/-- Document.get_all_sections: preorder flattening of a forest. -/
def allSecsF : List Sec → List Sec
  | [] => []
  | s :: ss => allSecsS s ++ allSecsF ss

/-- Preorder flattening of one subtree. -/
def allSecsS : Sec → List Sec
  | .mk t l p c tb subs => .mk t l p c tb subs :: allSecsF subs
end

/-- First index (in DFS order) among the given candidate indices whose
section has strictly the fewest pages (the most specific covering section in
_extract_tables). -/
def bestIdx (all : List Sec) : List Nat → Nat
  | [] => 0
  | k :: ks => ks.foldl
      (fun best j =>
        if (all.getD j default).pages.length < (all.getD best default).pages.length
        then j else best) k

/-- PDFParser._extract_tables, assignment phase: for each page with detected
tables and at least one covering section, pair every table with the DFS
index of its most specific covering section. -/
def tablesAssign (x : PdfInput) (secs : List Sec) : List (Nat × Tbl) :=
  let all := allSecsF secs
  (List.range x.pageCount).flatMap (fun i =>
    let pg := i + 1
    let tabs := detectTables (x.cellText pg) (x.drawings.getD i []) pg
    if tabs.isEmpty then []
    else
      let onPage := (List.range all.length).filterMap (fun k =>
        if (pg : Int) ∈ (all.getD k default).pages then some k else none)
      if onPage.isEmpty then []
      else tabs.map (fun tb => (bestIdx all onPage, tb)))

mutual
/-- Append the assigned tables to each node, numbering nodes in DFS
preorder. -/
def attachF (f : Nat → List Tbl) (i : Nat) : List Sec → List Sec × Nat
  | [] => ([], i)
  | s :: ss =>
    let r1 := attachS f i s
    let r2 := attachF f r1.2 ss
    (r1.1 :: r2.1, r2.2)

/-- Append the assigned tables within one subtree. -/
def attachS (f : Nat → List Tbl) (i : Nat) : Sec → Sec × Nat
  | .mk t l p c tb subs =>
    let r := attachF f (i + 1) subs
    (.mk t l p c (tb ++ f i) r.1, r.2)
end

/-- PDFParser._extract_tables end to end over the section forest. -/
def extractTablesDoc (x : PdfInput) (secs : List Sec) : List Sec :=
  let asg := tablesAssign x secs
  (attachF (fun k => (asg.filter (fun e => e.1 = k)).map (fun e => e.2)) 0 secs).1

/-- PDFParser.parse: validate, extract the title, extract text blocks,
analyze fonts when heading detection is on, build the structure, extract
tables when requested; returns the Document and the updated parser state, or
the propagated fatal error. -/
def parseRun (cfg : Config) (x : PdfInput) (s : PState) :
    Except PErr (DocM × PState) :=
  match validateInput x with
  | .error e => .error e
  | .ok _ =>
    let title := if cfg.extractTitle then extractDocTitle x else x.fileName
    let tbp := extractAllBlocks x
    let s1 := analyzeStep cfg tbp s
    let r := createDocSecs cfg x tbp s1
    let secs := if cfg.detectTables then extractTablesDoc x r.2 else r.2
    .ok (⟨title, (x.pageCount : Int), secs⟩, r.1)

/-- The parser state after a call of parse (an exception leaves the
observable state unchanged: validation raises before any attribute is
written). -/
def nextState (cfg : Config) (x : PdfInput) (s : PState) : PState :=
  match parseRun cfg x s with
  | .ok r => r.2
  | .error _ => s

/-- The document produced by a parse call, if any. -/
def docOf (r : Except PErr (DocM × PState)) : Option DocM :=
  match r with
  | .ok p => some p.1
  | .error _ => none

/-! ### Document construction validation (models/document.py) -/

/-- Check one top-level section's page list against the page count
(Document.check_document_consistency inner loop): the first out-of-range
page raises ValueError. -/
def checkPages (title : String) (total : Int) : List Int → Except String Unit
  | [] => .ok ()
  | p :: ps =>
    if p < 1 || p > total then
      .error (pyAppend "Section '" (pyAppend title
        (pyAppend "' references invalid page " (toString p))))
    else checkPages title total ps

/-- Document.check_document_consistency (models/document.py lines 143-162):
iterate the top-level sections and their page lists; the uncovered-pages
case only logs a warning. -/
def checkTopSections (total : Int) : List Sec → Except String Unit
  | [] => .ok ()
  | s :: ss =>
    match checkPages s.title total s.pages with
    | .error e => .error e
    | .ok _ => checkTopSections total ss

/-- Construction of a Document value with its pydantic validation: the
pages field validator requires a positive page count, then the root
validator checks every top-level section's pages against [1, total]. -/
def mkDocument (title : String) (pages : Int) (sections : List Sec) :
    Except String DocM :=
  if pages ≤ 0 then .error "Document must have at least one page"
  else
    match checkTopSections pages sections with
    | .error e => .error e
    | .ok _ => .ok ⟨title, pages, sections⟩

/-- Whether an Except value is a success. -/
def exceptOk : Except ε α → Bool
  | .ok _ => true
  | .error _ => false


/-! ### Concrete scenario inputs and auxiliary predicates for the claims -/

instance : Inhabited Tbl := ⟨⟨none, 0, (0, 0, 0, 0), []⟩⟩

/-- Scenario A input and output: the outline
[(1, Intro, 1), (2, Background, 1), (1, Methods, 3)] with 5 total pages,
run through _create_structure_from_toc with no text blocks. -/
def scenAOut : List Sec :=
  tocStructure [(1, "Intro", 1), (2, "Background", 1), (1, "Methods", 3)] 5
    (fun _ => []) (fun _ => [])

/-- Scenario B drawings: two horizontal line-groups of two segments each
(y near 0 and y near 100) and two vertical line-groups of two segments each
(x near 0 and x near 50), all crossing. -/
def scenBDraw : List Drawing :=
  [.line 0 0 50 0, .line 0 1 50 1,
   .line 0 100 50 100, .line 0 101 50 101,
   .line 0 0 0 101, .line 1 0 1 101,
   .line 50 0 50 101, .line 51 0 51 101]

/-- Entry list on which the two tree builders disagree: levels 1, 3, 3. -/
def exC5 : List (Int × String × Int) := [(1, "A", 1), (3, "B", 1), (3, "C", 1)]

/-- Text blocks for the C8 counterexample: page 1 carries a single block
whose text is exactly the title of the other section. -/
def tbC8 : Int → List Block :=
  fun p => if p = 1 then [⟨"B", 0, 0, 10, 10, 12, false, false⟩] else []

/-- Populated sections for the C8 counterexample. -/
def resC8 : List Sec :=
  populateF tbC8 (fun _ => [])
    [Sec.mk "A" 1 [1] "" [] [], Sec.mk "B" 1 [2] "" [] []]

/-- The stack invariant: frame levels are exactly depth, depth-1, ..., 1. -/
def levelsOK : List Frame → Bool
  | [] => true
  | f :: r => (f.level == (r.length : Int) + 1) && levelsOK r

/-- The no-jump condition on an entry sequence, relative to the current
depth d: each entry's level is at least 1 and at most one more than the
previous entry's level (d for the first entry). -/
def noJumpsB : Int → List (Int × String × Int) → Bool
  | _, [] => true
  | d, e :: es => decide (1 ≤ e.1) && decide (e.1 ≤ d + 1) && noJumpsB e.1 es

/-! ### Helper lemmas -/

theorem checkPages_ok_bound {title : String} {total : Int} :
    ∀ {ps : List Int}, checkPages title total ps = .ok () →
      ∀ p ∈ ps, ¬(p < 1 ∨ p > total) := by
  intro ps
  induction ps with
  | nil => intro _ p hp; cases hp
  | cons q qs ih =>
    intro h p hp
    rw [checkPages] at h
    by_cases hq : q < 1 ∨ q > total
    · rw [if_pos (by simpa using hq)] at h; cases h
    · rw [if_neg (by simpa using hq)] at h
      rcases List.mem_cons.mp hp with rfl | hmem
      · exact hq
      · exact ih h p hmem

theorem checkTopSections_err {total : Int} :
    ∀ {ss : List Sec}, (∃ s ∈ ss, ∃ p ∈ s.pages, p < 1 ∨ p > total) →
      ∀ u, checkTopSections total ss ≠ .ok u := by
  intro ss
  induction ss with
  | nil => rintro ⟨s, hs, -⟩; cases hs
  | cons t ts ih =>
    rintro ⟨s, hs, p, hp, hbad⟩ u h
    rw [checkTopSections] at h
    rcases hcp : checkPages t.title total t.pages with e | v
    · rw [hcp] at h; cases h
    · rw [hcp] at h
      rcases List.mem_cons.mp hs with rfl | hmem
      · exact checkPages_ok_bound (by rw [hcp]) p hp hbad
      · exact ih ⟨s, hmem, p, hp, hbad⟩ u h

/-! ### Claim theorems -/

/-- Claim C9: for every input document reporting zero pages, parsing raises
a fatal input error (PDFInputError from validate_pdf_file) that propagates
to the caller, and no Document value, not even a partial one, is
produced. -/
theorem zero_pages_fatal (cfg : Config) (x : PdfInput) (s : PState)
    (h : x.pageCount = 0) :
    parseRun cfg x s = .error (.inputErr "PDF file contains no pages") ∧
      docOf (parseRun cfg x s) = none := by
  have hv : validateInput x = .error (.inputErr "PDF file contains no pages") := by
    rw [validateInput, if_pos h]
  constructor
  · rw [parseRun, hv]
  · rw [parseRun, hv]; rfl

/-- Witness for C9 at a concrete zero-page input. -/
theorem zero_pages_fatal_witness :
    parseRun ⟨true, true, true, 12, 1.2, true⟩
        ⟨0, "", [], "doc.pdf", [], [], [], fun _ _ => "", false, false⟩
        ⟨false, none, []⟩ =
      .error (.inputErr "PDF file contains no pages") :=
  (zero_pages_fatal ⟨true, true, true, 12, 1.2, true⟩
    ⟨0, "", [], "doc.pdf", [], [], [], fun _ _ => "", false, false⟩
    ⟨false, none, []⟩ rfl).1

/-- Claim C10: for every title, page count n > 0 and sections list in which
some section references a page outside [1, n], constructing a Document fails
with a validation error; such a Document is never successfully
constructed.  (The pydantic root validator inspects the pages of the
top-level sections of the list, which is what the claim's sections list
contains.) -/
theorem invalid_page_rejected (title : String) (n : Int) (ss : List Sec)
    (hn : 0 < n) (hbad : ∃ s ∈ ss, ∃ p ∈ s.pages, p < 1 ∨ p > n) :
    exceptOk (mkDocument title n ss) = false := by
  rw [mkDocument, if_neg (by omega)]
  rcases h : checkTopSections n ss with e | u
  · rw [exceptOk]
  · exact absurd h (checkTopSections_err hbad u)

/-- Witness for C10: a one-section list referencing page 5 of a 3-page
document is rejected. -/
theorem invalid_page_rejected_witness :
    exceptOk (mkDocument "Doc" 3 [Sec.mk "S" 1 [5] "" [] []]) = false :=
  invalid_page_rejected "Doc" 3 [Sec.mk "S" 1 [5] "" [] []] (by decide)
    ⟨Sec.mk "S" 1 [5] "" [] [], by simp, 5, by simp [Sec.pages], by decide⟩


/-- Claim C1, counterexample: Scenario A does not produce Intro with pages
[1, 2] and Background with pages [1, 2]; the recursion passes the document
total (5) to the subsection sweep, so Background (the only, hence last,
child sibling) extends to page 5 and Intro is then extended to cover it. -/
theorem scenarioA_counterexample :
    ¬ (scenAOut.length = 2 ∧
       (scenAOut.headD default).title = "Intro" ∧
       (scenAOut.headD default).pages = [1, 2] ∧
       ((scenAOut.headD default).subs.map Sec.pages) = [[1, 2]]) := by
  decide

/-- Claim C1, amended: Scenario A produces exactly two top-level sections,
Intro with pages [1, 2, 3, 4, 5] and Methods with pages [3, 4, 5];
Background is Intro's only child and resolves to pages [1, 2, 3, 4, 5],
because the last sibling of every sibling list, at any depth, ends at the
document's last page, after which the parent is extended to contain it. -/
theorem scenarioA_resolved :
    scenAOut.length = 2 ∧
    (scenAOut.getD 0 default).title = "Intro" ∧
    (scenAOut.getD 0 default).pages = [1, 2, 3, 4, 5] ∧
    (scenAOut.getD 1 default).title = "Methods" ∧
    (scenAOut.getD 1 default).pages = [3, 4, 5] ∧
    ((scenAOut.getD 0 default).subs.map Sec.title) = ["Background"] ∧
    ((scenAOut.getD 0 default).subs.map Sec.pages) = [[1, 2, 3, 4, 5]] := by
  decide


/-- Claim C4, counterexample: on a page whose primitives form two
horizontal groups of 2 segments and two vertical groups of 2 segments with
every pair crossing (each candidate has 4 crossings, above the required
min(2,2) = 2), detection does not yield one table with 2 data rows: it
yields no table at all, even with text in every cell, because a 2-segment
row group delimits at most one row band. -/
theorem two_line_groups_counterexample :
    ¬ ((detectTables (fun _ => "x") scenBDraw 1).length = 1 ∧
       ((detectTables (fun _ => "x") scenBDraw 1).headD default).data.length = 2) := by
  decide


/-- Claim C5, counterexample: on the entries (1, A), (3, B), (3, C) the
outline builder pops by stack length (while len(stack) >= level) and makes C
a child of B, while the heading builder pops by level (while top.level >=
level) and makes C a sibling of B under A; the two trees differ. -/
theorem builders_differ_counterexample : tocAssemble exC5 ≠ headAssemble exC5 := by
  intro h
  have h2 := congrArg
    (fun l => ((l.headD default).subs.map (fun s => s.subs.length))) h
  exact absurd h2 (by decide)


/-- Claim C8, counterexample: _populate_section_content only skips blocks
equal to the section's own title, so a block on section A's page whose text
equals section B's title lands verbatim in A's content. -/
theorem foreign_title_counterexample :
    (resC8.headD default).title = "A" ∧
    (resC8.getD 1 default).title = "B" ∧
    (resC8.headD default).content = "B" := by
  decide

/-- Claim C6, counterexample: the classification loop the pipeline actually
runs (PDFParser._analyze_font_statistics) classifies a plain span whose font
size equals the threshold as a candidate with level 4, where the claimed
ladder assigns level 3 (the parser's ladder reads size >= 1.5t then 1.25t
then bold, giving bold 3 and plain 4 inside [t, 1.25t), has no Appendix
rule, and its numbered pattern needs a trailing dot). -/
theorem parser_level_counterexample :
    classifyBlock 14 ⟨"Body text", 0, 0, 0, 0, 14, false, false⟩ =
      some ⟨"Body text", 4, 0, 0, 0, 0, 14, false⟩ ∧
    specHeadingLevel "Body text" 14 false 14 = 3 := by
  have hn : pNumbered "Body text" = false := rfl
  have hu : pyIsUpper "Body text" = false := rfl
  have ha : startsW (pyLower (pyStrip "Body text")) "appendix" = false := rfl
  have hd : numericDots (pyStrip "Body text") = none := rfl
  constructor
  · rw [classifyBlock]
    norm_num [hn, hu]
  · rw [specHeadingLevel]
    norm_num [ha, hd, specSizeLevel]

/-- Claim C6, amended: the claimed level assignment (size at least
1.5 threshold gives 1, at least 1.25 threshold gives 2, at least the
threshold gives 3, bold-only gives 4, else 5; a numeric prefix overrides
with its dot count plus one capped at 5; a leading Appendix token forces
level 1) is exactly StructureDetector._determine_heading_level; the
pipeline's own classifier in PDFParser._analyze_font_statistics deviates
from it. -/
theorem struct_level_matches_spec (text : String) (fs : ℚ) (bold : Bool)
    (t : ℚ) : detHeadingLevel text fs bold t = specHeadingLevel text fs bold t := by
  unfold detHeadingLevel specHeadingLevel specSizeLevel
  rcases h1 : startsW (pyLower (pyStrip text)) "appendix" <;>
    rcases h2 : numericDots (pyStrip text) with _ | d <;>
      simp [h1, h2, mul_comm]

/-- Claim C8, amended: a block whose text equals the enclosing section's own
title is never collected into that section's content (both collection
branches of _populate_section_content skip it); blocks matching other
sections' titles are not excluded by the pipeline's implementation. -/
theorem own_title_excluded (tb : Int → List Block) (hc : Int → List Heading)
    (s : Sec) : (collectContent tb hc s).all (fun c => !(c == s.title)) = true := by
  rw [List.all_eq_true]
  intro c hcm
  simp only [Bool.not_eq_true', beq_eq_false_iff_ne, ne_eq]
  intro hEq
  subst hEq
  unfold collectContent at hcm
  rw [List.mem_flatMap] at hcm
  obtain ⟨pg, _, hmem⟩ := hcm
  by_cases h1 : pg ∈ s.subs.flatMap Sec.pages
  · rw [if_pos h1] at hmem
    by_cases h2 : pg = minPages s.pages
    · rw [if_pos h2] at hmem
      rw [List.mem_filterMap] at hmem
      obtain ⟨b, _, hb⟩ := hmem
      by_cases h3 : b.text = s.title
      · rw [if_pos h3] at hb; cases hb
      · rw [if_neg h3] at hb
        by_cases h4 : ((((hc pg).filter (fun h => h.text ≠ s.title)).map
            (fun h => h.y0)).isEmpty || decide (b.y0 < minPages
              (((hc pg).filter (fun h => h.text ≠ s.title)).map (fun h => h.y0)))) = true
        · rw [if_pos h4] at hb
          exact h3 (Option.some.inj hb)
        · rw [if_neg h4] at hb; cases hb
    · rw [if_neg h2] at hmem; cases hmem
  · rw [if_neg h1] at hmem
    rw [List.mem_filterMap] at hmem
    obtain ⟨b, _, hb⟩ := hmem
    by_cases h3 : b.text = s.title
    · rw [if_pos h3] at hb; cases hb
    · rw [if_neg h3] at hb
      exact h3 (Option.some.inj hb)

/-! ### Lemmas about the sorting and dedup primitives -/

theorem stIns_perm (leB : α → α → Bool) (x : α) :
    ∀ l : List α, (stIns leB x l).Perm (x :: l) := by
  intro l
  induction l with
  | nil => rfl
  | cons t ts ih =>
    rw [stIns]
    by_cases h : leB t x = true
    · rw [if_pos h]
      exact (ih.cons t).trans (List.Perm.swap x t ts)
    · rw [if_neg h]

theorem stSort_foldl_perm (leB : α → α → Bool) :
    ∀ (l acc : List α),
      (l.foldl (fun a x => stIns leB x a) acc).Perm (acc ++ l) := by
  intro l
  induction l with
  | nil => intro acc; simp
  | cons x xs ih =>
    intro acc
    rw [List.foldl_cons]
    refine (ih (stIns leB x acc)).trans ?_
    refine (List.Perm.append_right xs (stIns_perm leB x acc)).trans ?_
    exact (List.perm_middle).symm.trans (by simp)

theorem stSort_perm (leB : α → α → Bool) (l : List α) :
    (stSort leB l).Perm l := by
  simpa using stSort_foldl_perm leB l []

theorem mem_stSort {leB : α → α → Bool} {l : List α} {a : α} :
    a ∈ stSort leB l ↔ a ∈ l :=
  (stSort_perm leB l).mem_iff

theorem mem_dedupAdj : ∀ {l : List Int} {a : Int}, a ∈ dedupAdj l ↔ a ∈ l := by
  intro l
  induction l with
  | nil => intro a; rfl
  | cons x xs ih =>
    intro a
    cases xs with
    | nil => rfl
    | cons y ys =>
      rw [dedupAdj]
      by_cases h : x = y
      · rw [if_pos h, ih]
        subst h
        simp
      · rw [if_neg h]
        simp [ih]

theorem mem_sortedDedup {l : List Int} {a : Int} :
    a ∈ sortedDedup l ↔ a ∈ l := by
  rw [sortedDedup, mem_dedupAdj, mem_stSort]

theorem pagesSub_iff {xs ys : List Int} :
    pagesSub xs ys = true ↔ ∀ p ∈ xs, p ∈ ys := by
  rw [pagesSub, List.all_eq_true]
  simp

/-! ### Claim C2: the containment invariant of the resolver -/

theorem applyRange_subsetOk {s : Sec} (e : Int)
    (hin : subsetOkF s.subs = true) :
    subsetOkS (applyRange e s) = true := by
  rcases s with ⟨t, l, p, c, tb, subs⟩
  rw [applyRange]
  by_cases hemp : subs.isEmpty
  · rw [if_pos hemp]
    rcases subs with _ | ⟨u, us⟩
    · rfl
    · cases hemp
  · rw [if_neg hemp]
    by_cases hsub : pagesSub (flatPages subs) (intRange (minPages p) e) = true
    · rw [if_pos hsub, subsetOkS]
      rw [Bool.and_eq_true]
      refine ⟨List.all_eq_true.mpr ?_, hin⟩
      intro c' hc'
      rw [pagesSub_iff]
      intro q hq
      exact (pagesSub_iff.mp hsub) q
        (List.mem_flatMap.mpr ⟨c', hc', hq⟩)
    · rw [if_neg hsub, subsetOkS]
      rw [Bool.and_eq_true]
      refine ⟨List.all_eq_true.mpr ?_, hin⟩
      intro c' hc'
      rw [pagesSub_iff]
      intro q hq
      rw [mem_sortedDedup, List.mem_append]
      exact Or.inr (List.mem_flatMap.mpr ⟨c', hc', hq⟩)

theorem assignSorted_subsetOk (total : Int) :
    ∀ l : List Sec, (∀ s ∈ l, subsetOkF s.subs = true) →
      subsetOkF (assignSorted total l) = true
  | [], _ => rfl
  | [s], h => by
    rw [assignSorted, subsetOkF, subsetOkF, Bool.and_eq_true]
    exact ⟨applyRange_subsetOk total (h s (by simp)), rfl⟩
  | s :: t :: rest, h => by
    rw [assignSorted, subsetOkF, Bool.and_eq_true]
    refine ⟨applyRange_subsetOk _ (h s (by simp)), ?_⟩
    exact assignSorted_subsetOk total (t :: rest)
      (fun u hu => h u (List.mem_cons_of_mem s hu))

mutual
theorem resolveEachS_inner : ∀ (total : Int) (s : Sec),
    subsetOkF (resolveEachS total s).subs = true
  | total, .mk t l p c tb subs => by
    rw [resolveEachS, Sec.subs]
    exact assignSorted_subsetOk total _
      (fun s' hs' => resolveEachF_inner total subs s' (mem_stSort.mp hs'))

theorem resolveEachF_inner : ∀ (total : Int) (ss : List Sec) (s : Sec),
    s ∈ resolveEachF total ss → subsetOkF s.subs = true
  | total, [], s => by intro h; cases h
  | total, u :: us, s => by
    intro h
    rw [resolveEachF] at h
    rcases List.mem_cons.mp h with rfl | hmem
    · exact resolveEachS_inner total u
    · exact resolveEachF_inner total us s hmem
end

/-- Claim C2: after page-range resolution, for every section anywhere in
the resolved tree, every direct child's resolved page set is a subset of the
parent's resolved page set; when raw ranges violate this, the parent is
extended by the union of its children's pages, and children are never
shrunk (the extension step rewrites only the parent's pages). -/
theorem child_pages_subset (total : Int) (ss : List Sec) :
    subsetOkF (resolveForest total ss) = true := by
  rw [resolveForest]
  exact assignSorted_subsetOk total _
    (fun s hs => resolveEachF_inner total ss s (mem_stSort.mp hs))

/-! ### Lemmas about list minima, maxima and integer ranges -/

theorem foldl_min_le (ys : List Int) : ∀ y : Int,
    ys.foldl min y ≤ y ∧ ∀ x ∈ ys, ys.foldl min y ≤ x := by
  induction ys with
  | nil => intro y; exact ⟨le_refl y, by intro x hx; cases hx⟩
  | cons z zs ih =>
    intro y
    rw [List.foldl_cons]
    obtain ⟨h1, h2⟩ := ih (min y z)
    refine ⟨h1.trans (min_le_left y z), ?_⟩
    intro x hx
    rcases List.mem_cons.mp hx with rfl | hmem
    · exact h1.trans (min_le_right y x)
    · exact h2 x hmem

theorem foldl_min_mem (ys : List Int) : ∀ y : Int, ys.foldl min y ∈ y :: ys := by
  induction ys with
  | nil => intro y; simp
  | cons z zs ih =>
    intro y
    rw [List.foldl_cons]
    have h := ih (min y z)
    rcases List.mem_cons.mp h with he | hmem
    · rw [he]
      rcases min_choice y z with h2 | h2 <;> rw [h2] <;> simp
    · simp [hmem]

theorem minPages_le {l : List Int} {x : Int} (h : x ∈ l) : minPages l ≤ x := by
  rcases l with _ | ⟨y, ys⟩
  · cases h
  · rw [minPages]
    rcases List.mem_cons.mp h with rfl | hmem
    · exact (foldl_min_le ys x).1
    · exact (foldl_min_le ys y).2 x hmem

theorem minPages_mem {l : List Int} (h : l ≠ []) : minPages l ∈ l := by
  rcases l with _ | ⟨y, ys⟩
  · exact absurd rfl h
  · rw [minPages]; exact foldl_min_mem ys y

theorem minPages_eq {l : List Int} {a : Int} (hmem : a ∈ l)
    (hall : ∀ x ∈ l, a ≤ x) : minPages l = a :=
  le_antisymm (minPages_le hmem)
    (hall _ (minPages_mem (by rintro rfl; cases hmem)))

theorem foldl_max_ge (ys : List Int) : ∀ y : Int,
    y ≤ ys.foldl max y ∧ ∀ x ∈ ys, x ≤ ys.foldl max y := by
  induction ys with
  | nil => intro y; exact ⟨le_refl y, by intro x hx; cases hx⟩
  | cons z zs ih =>
    intro y
    rw [List.foldl_cons]
    obtain ⟨h1, h2⟩ := ih (max y z)
    refine ⟨(le_max_left y z).trans h1, ?_⟩
    intro x hx
    rcases List.mem_cons.mp hx with rfl | hmem
    · exact (le_max_right y x).trans h1
    · exact h2 x hmem

theorem foldl_max_mem (ys : List Int) : ∀ y : Int, ys.foldl max y ∈ y :: ys := by
  induction ys with
  | nil => intro y; simp
  | cons z zs ih =>
    intro y
    rw [List.foldl_cons]
    have h := ih (max y z)
    rcases List.mem_cons.mp h with he | hmem
    · rw [he]
      rcases max_choice y z with h2 | h2 <;> rw [h2] <;> simp
    · simp [hmem]

theorem maxPages_ge {l : List Int} {x : Int} (h : x ∈ l) : x ≤ maxPages l := by
  rcases l with _ | ⟨y, ys⟩
  · cases h
  · rw [maxPages]
    rcases List.mem_cons.mp h with rfl | hmem
    · exact (foldl_max_ge ys x).1
    · exact (foldl_max_ge ys y).2 x hmem

theorem maxPages_mem {l : List Int} (h : l ≠ []) : maxPages l ∈ l := by
  rcases l with _ | ⟨y, ys⟩
  · exact absurd rfl h
  · rw [maxPages]; exact foldl_max_mem ys y

theorem maxPages_eq {l : List Int} {a : Int} (hmem : a ∈ l)
    (hall : ∀ x ∈ l, x ≤ a) : maxPages l = a :=
  le_antisymm (hall _ (maxPages_mem (by rintro rfl; cases hmem)))
    (maxPages_ge hmem)

theorem mem_intRange {a b x : Int} : x ∈ intRange a b ↔ a ≤ x ∧ x ≤ b := by
  rw [intRange]
  constructor
  · intro h
    obtain ⟨k, hk, he⟩ := List.mem_map.mp h
    have hk2 := List.mem_range.mp hk
    omega
  · rintro ⟨h1, h2⟩
    refine List.mem_map.mpr ⟨(x - a).toNat, List.mem_range.mpr (by omega), ?_⟩
    show a + (((x - a).toNat : Nat) : Int) = x
    omega

theorem intRange_ne_nil {a b : Int} (h : a ≤ b) : intRange a b ≠ [] := by
  intro hnil
  have : a ∈ intRange a b := mem_intRange.mpr ⟨le_refl a, h⟩
  rw [hnil] at this
  cases this

theorem minPages_intRange {a b : Int} (h : a ≤ b) :
    minPages (intRange a b) = a :=
  minPages_eq (mem_intRange.mpr ⟨le_refl a, h⟩)
    (fun _ hx => (mem_intRange.mp hx).1)

theorem maxPages_intRange {a b : Int} (h : a ≤ b) :
    maxPages (intRange a b) = b :=
  maxPages_eq (mem_intRange.mpr ⟨h, le_refl b⟩)
    (fun _ hx => (mem_intRange.mp hx).2)

/-! ### Sortedness of the stable sort -/

theorem stIns_pairwise {le : α → α → Bool}
    (htot : ∀ a b, le a b = true ∨ le b a = true)
    (htr : ∀ a b c, le a b = true → le b c = true → le a c = true)
    (x : α) : ∀ {l : List α}, l.Pairwise (fun a b => le a b = true) →
      (stIns le x l).Pairwise (fun a b => le a b = true) := by
  intro l
  induction l with
  | nil => intro _; simp [stIns]
  | cons t ts ih =>
    intro h
    obtain ⟨h1, h2⟩ := List.pairwise_cons.mp h
    rw [stIns]
    by_cases hle : le t x = true
    · rw [if_pos hle]
      rw [List.pairwise_cons]
      refine ⟨?_, ih h2⟩
      intro u hu
      rcases List.mem_cons.mp ((stIns_perm le x ts).mem_iff.mp hu) with rfl | hmem
      · exact hle
      · exact h1 u hmem
    · rw [if_neg hle]
      rcases htot x t with hxt | hxt
      · rw [List.pairwise_cons]
        refine ⟨?_, h⟩
        intro u hu
        rcases List.mem_cons.mp hu with rfl | hmem
        · exact hxt
        · exact htr x t u hxt (h1 u hmem)
      · exact absurd hxt hle

theorem stSort_pairwise {le : α → α → Bool}
    (htot : ∀ a b, le a b = true ∨ le b a = true)
    (htr : ∀ a b c, le a b = true → le b c = true → le a c = true)
    (l : List α) : (stSort le l).Pairwise (fun a b => le a b = true) := by
  rw [stSort]
  have main : ∀ (l acc : List α),
      acc.Pairwise (fun a b => le a b = true) →
      (l.foldl (fun a x => stIns le x a) acc).Pairwise (fun a b => le a b = true) := by
    intro l
    induction l with
    | nil => intro acc h; exact h
    | cons x xs ih =>
      intro acc h
      rw [List.foldl_cons]
      exact ih _ (stIns_pairwise htot htr x h)
  exact main l [] (by simp)

theorem secMinLe_tot : ∀ a b : Sec, secMinLe a b = true ∨ secMinLe b a = true := by
  intro a b
  rw [secMinLe, secMinLe, decide_eq_true_eq, decide_eq_true_eq]
  exact Int.le_total _ _

theorem secMinLe_trans : ∀ a b c : Sec, secMinLe a b = true →
    secMinLe b c = true → secMinLe a c = true := by
  intro a b c h1 h2
  rw [secMinLe, decide_eq_true_eq] at h1 h2 ⊢
  exact h1.trans h2

/-! ### Claim C3: the sibling-partition property -/

theorem applyRange_leaf {s : Sec} (e : Int) (h : s.subs = []) :
    applyRange e s =
      Sec.mk s.title s.level (intRange (minPages s.pages) e) s.content
        s.tables [] := by
  rcases s with ⟨t, l, p, c, tb, subs⟩
  have hsub : subs = [] := h
  subst hsub
  rfl

theorem contigB_range {a b : Int} (h : a ≤ b) (t : String) (l : Int)
    (c : String) (tb : List Tbl) (subs : List Sec) :
    contigB (Sec.mk t l (intRange a b) c tb subs) = true := by
  rw [contigB, Sec.pages, minPages_intRange h, maxPages_intRange h]
  rw [Bool.and_eq_true]
  constructor
  · rcases he : intRange a b with _ | ⟨u, us⟩
    · exact absurd he (intRange_ne_nil h)
    · rfl
  · exact beq_self_eq_true _

theorem resolveEachF_leaves : ∀ (total : Int) (ss : List Sec),
    (∀ s ∈ ss, s.subs = []) → resolveEachF total ss = ss
  | _, [], _ => rfl
  | total, u :: us, h => by
    rw [resolveEachF]
    have hu : u.subs = [] := h u (by simp)
    rcases u with ⟨t, l, p, c, tb, subs⟩
    have hsub : subs = [] := hu
    subst hsub
    rw [resolveEachF_leaves total us (fun s hs => h s (by simp [hs]))]
    rfl

theorem assignSorted_chain : ∀ (total : Int) (l : List Sec),
    (∀ s ∈ l, s.pages ≠ [] ∧ s.subs = [] ∧ minPages s.pages ≤ total) →
    l.Pairwise (fun a b => secMinLe a b = true) →
    l.Pairwise (fun a b => minPages a.pages ≠ minPages b.pages) →
    sibChainB total (assignSorted total l) = true
  | _, [], _, _, _ => rfl
  | total, [s], h, _, _ => by
    obtain ⟨hne, hleaf, hbd⟩ := h s (by simp)
    rw [assignSorted, applyRange_leaf total hleaf, sibChainB]
    rw [Bool.and_eq_true]
    refine ⟨contigB_range hbd _ _ _ _ _, ?_⟩
    rw [Sec.pages, maxPages_intRange hbd]
    exact beq_self_eq_true _
  | total, s :: t :: rest, h, hpw, hnep => by
    obtain ⟨hsne, hsleaf, hsbd⟩ := h s (by simp)
    obtain ⟨htne, htleaf, htbd⟩ := h t (by simp)
    obtain ⟨hst, hpw'⟩ := List.pairwise_cons.mp hpw
    obtain ⟨hstne, hnep'⟩ := List.pairwise_cons.mp hnep
    have hlt : minPages s.pages < minPages t.pages := by
      have h1 : minPages s.pages ≤ minPages t.pages := by
        have := hst t (by simp)
        rw [secMinLe, decide_eq_true_eq] at this
        exact this
      have h2 := hstne t (by simp)
      omega
    have ih := assignSorted_chain total (t :: rest)
      (fun u hu => h u (List.mem_cons_of_mem s hu)) hpw' hnep'
    rw [assignSorted, applyRange_leaf _ hsleaf]
    rcases rest with _ | ⟨u, r⟩
    · rw [assignSorted, applyRange_leaf total htleaf] at ih ⊢
      rw [sibChainB, Bool.and_eq_true, Bool.and_eq_true]
      refine ⟨⟨contigB_range (by omega) _ _ _ _ _, ?_⟩, ih⟩
      rw [Sec.pages, Sec.pages, maxPages_intRange (by omega : minPages s.pages ≤ minPages t.pages - 1),
        minPages_intRange htbd, beq_iff_eq]
      omega
    · obtain ⟨hune, huleaf, hubd⟩ := h u (by simp)
      have hltu : minPages t.pages < minPages u.pages := by
        have h1 : minPages t.pages ≤ minPages u.pages := by
          have := (List.pairwise_cons.mp hpw').1 u (by simp)
          rw [secMinLe, decide_eq_true_eq] at this
          exact this
        have h2 := (List.pairwise_cons.mp hnep').1 u (by simp)
        omega
      rw [assignSorted, applyRange_leaf _ htleaf] at ih ⊢
      rw [sibChainB, Bool.and_eq_true, Bool.and_eq_true]
      refine ⟨⟨contigB_range (by omega) _ _ _ _ _, ?_⟩, ih⟩
      rw [Sec.pages, Sec.pages,
        maxPages_intRange (by omega : minPages s.pages ≤ minPages t.pages - 1),
        minPages_intRange (by omega : minPages t.pages ≤ minPages u.pages - 1),
        beq_iff_eq]
      omega

/-- Claim C3, counterexample: two top-level siblings that are both anchored
at page 1 do not partition contiguously after resolution; the first sibling
receives the empty range [1, 0] (Python range(1, 1)) and has no last page at
all. -/
theorem sibling_partition_counterexample :
    sibChainB 2 (resolveForest 2
      [Sec.mk "A" 1 [1] "" [] [], Sec.mk "B" 1 [1] "" [] []]) = false := by
  decide

/-- Claim C3, amended: for a sibling list of subsection-free sections whose
minimum (anchor) pages are pairwise distinct and at most the total page
count, the resolved sibling ranges partition a contiguous span ascendingly
with no gaps and no overlaps: each resolved range is nonempty and
contiguous, each sibling's last page is the next sibling's first page minus
one, and the last sibling's range ends at the total page count.  (Siblings
sharing an anchor page, or a section whose subsections force the
parent-extension step, break the partition, as the counterexamples show.) -/
theorem sibling_partition_resolved (total : Int) (ss : List Sec)
    (h : ∀ s ∈ ss, s.pages ≠ [] ∧ s.subs = [] ∧ minPages s.pages ≤ total)
    (hne : ss.Pairwise (fun a b => minPages a.pages ≠ minPages b.pages)) :
    sibChainB total (resolveForest total ss) = true := by
  rw [resolveForest, resolveEachF_leaves total ss (fun s hs => (h s hs).2.1)]
  apply assignSorted_chain total (stSortSec ss)
  · intro s hs
    exact h s (mem_stSort.mp hs)
  · exact stSort_pairwise secMinLe_tot secMinLe_trans ss
  · exact ((stSort_perm secMinLe ss).pairwise_iff
      (fun hx => Ne.symm hx)).mpr hne

/-- Witness for the amended C3 at anchors 1 and 3 with 5 pages. -/
theorem sibling_partition_witness :
    sibChainB 5 (resolveForest 5
      [Sec.mk "A" 1 [1] "" [] [], Sec.mk "B" 1 [3] "" [] []]) = true :=
  sibling_partition_resolved 5
    [Sec.mk "A" 1 [1] "" [] [], Sec.mk "B" 1 [3] "" [] []]
    (by norm_num [List.forall_mem_cons, Sec.pages, Sec.subs, minPages])
    (by norm_num [List.pairwise_cons, Sec.pages, minPages])

/-! ### Claim C4: table detection on two 2-segment line-groups -/

theorem findCandidates_fst_mem {hGs vGs : List (List Seg)}
    {c : List Seg × List Seg} (h : c ∈ findCandidates hGs vGs) :
    c.1 ∈ hGs := by
  rw [findCandidates, List.mem_flatMap] at h
  obtain ⟨hg, hhg, hmem⟩ := h
  rw [List.mem_filterMap] at hmem
  obtain ⟨vg, _, he⟩ := hmem
  dsimp only at he
  split at he
  · rw [Option.some.injEq] at he
    rw [← he]
    exact hhg
  · cases he

theorem dedupAdj_length_le : ∀ l : List Int, (dedupAdj l).length ≤ l.length
  | [] => le_refl _
  | [a] => le_refl _
  | a :: b :: r => by
    rw [dedupAdj]
    by_cases h : a = b
    · rw [if_pos h]
      exact (dedupAdj_length_le (b :: r)).trans (by simp)
    · rw [if_neg h, List.length_cons, List.length_cons]
      exact Nat.succ_le_succ (dedupAdj_length_le (b :: r))

theorem sortedDedup_length_le (l : List Int) :
    (sortedDedup l).length ≤ l.length := by
  rw [sortedDedup]
  exact (dedupAdj_length_le _).trans (le_of_eq (stSort_perm _ l).length_eq)

theorem extractTableData_short (ct : Int × Int × Int × Int → String)
    {hg : List Seg} (vg : List Seg) (h : hg.length ≤ 2) :
    (extractTableData ct hg vg).length ≤ 1 := by
  rw [extractTableData]
  have hlen : (sortedDedup (hg.map Seg.y0)).length ≤ 2 :=
    (sortedDedup_length_le _).trans (by simpa using h)
  split
  · simp
  · refine (List.length_filterMap_le _ _).trans ?_
    rw [List.length_range]
    omega

/-- Claim C4, amended: on every page whose classified horizontal segments
group into clusters of at most 2 segments each (in particular, two
horizontal line-groups of 2 segments each), geometric table detection
yields no table at all, regardless of crossing counts and cell text: a
candidate's row group contributes at most 2 distinct y positions, hence at
most one data row, below the minimum of 2 rows. -/
theorem two_line_groups_no_table (ct : Int × Int × Int × Int → String)
    (ds : List Drawing) (pg : Nat)
    (h : ∀ g ∈ groupLines Seg.y0 5 (hvSplit ds).1, g.length ≤ 2) :
    detectTables ct ds pg = [] := by
  rw [detectTables]
  dsimp only
  split
  · split
    · rw [List.filterMap_eq_nil_iff]
      intro c hc
      have hlen : c.1.length ≤ 2 := h c.1 (findCandidates_fst_mem hc)
      split
      · rfl
      · have htd : (extractTableData ct c.1 c.2).length ≤ 1 :=
          extractTableData_short ct c.2 hlen
        have hd : decide ((extractTableData ct c.1 c.2).length ≥ 2) = false := by
          rw [decide_eq_false_iff_not]
          omega
        rw [if_neg]
        rw [hd]
        simp
    · rfl
  · rfl

/-- Witness for the amended C4 at the Scenario B drawing set. -/
theorem two_line_groups_witness :
    detectTables (fun _ => "x") scenBDraw 1 = [] :=
  two_line_groups_no_table (fun _ => "x") scenBDraw 1 (by decide)

/-! ### Claim C5: equivalence of the two tree builders

The outline builder pops by stack length, the heading builder by frame
level.  The two coincide exactly when the ancestor stack always carries
levels length, length-1, ..., 1, which holds when the entry sequence starts
at level 1 and never jumps up by more than one. -/


theorem popN_levels : ∀ (k : Nat) (tops : List Sec) (st : List Frame),
    ((popN k tops st).2.map Frame.level) = (st.map Frame.level).drop k
  | 0, _, _ => by rw [popN, List.drop_zero]
  | k + 1, tops, [] => by
    rw [popN]
    simp
  | k + 1, tops, [f] => by
    rw [popN, popN_levels k _ []]
    simp
  | k + 1, tops, f :: g :: r => by
    rw [popN, popN_levels k _ _]
    rfl

theorem levelsOK_congr : ∀ {l1 l2 : List Frame},
    l1.map Frame.level = l2.map Frame.level → levelsOK l1 = levelsOK l2 := by
  intro l1
  induction l1 with
  | nil =>
    intro l2 h
    rcases l2 with _ | ⟨g, gs⟩
    · rfl
    · cases h
  | cons f fs ih =>
    intro l2 h
    rcases l2 with _ | ⟨g, gs⟩
    · cases h
    · rw [List.map_cons, List.map_cons, List.cons.injEq] at h
      rw [levelsOK, levelsOK, h.1, ih h.2]
      have hlen : fs.length = gs.length := by
        have := congrArg List.length h.2
        simpa using this
      rw [hlen]

theorem levelsOK_drop : ∀ (st : List Frame) (k : Nat),
    levelsOK st = true → levelsOK (st.drop k) = true := by
  intro st
  induction st with
  | nil => intro k _; rw [List.drop_nil]; rfl
  | cons f r ih =>
    intro k h
    rcases k with _ | k
    · exact h
    · rw [List.drop_succ_cons]
      rw [levelsOK, Bool.and_eq_true] at h
      exact ih k h.2

theorem takeWhile_len_of_levelsOK : ∀ (st : List Frame),
    levelsOK st = true → ∀ L : Int, 2 ≤ L →
      (st.takeWhile (fun f => decide (f.level ≥ L))).length =
        st.length - (L - 1).toNat := by
  intro st
  induction st with
  | nil => intro _ L _; simp
  | cons f r ih =>
    intro h L hL
    rw [levelsOK, Bool.and_eq_true, beq_iff_eq] at h
    obtain ⟨hf, hr⟩ := h
    rw [List.takeWhile_cons]
    by_cases hge : f.level ≥ L
    · rw [if_pos (by simpa using hge), List.length_cons, ih hr L hL]
      rw [hf] at hge
      simp only [List.length_cons]
      omega
    · rw [if_neg (by simpa using hge)]
      rw [hf] at hge
      simp only [List.length_nil, List.length_cons]
      omega

theorem step_eq (tops : List Sec) (stack : List Frame)
    (e : Int × String × Int) (hlv : levelsOK stack = true) (h1 : 1 ≤ e.1)
    (h2 : e.1 ≤ (stack.length : Int) + 1) (ht : pyStrip e.2.1 = e.2.1)
    (hne : e.2.1 ≠ "") (hp : 1 ≤ e.2.2) :
    tocStepA (tops, stack) e = headStepA (tops, stack) e ∧
    levelsOK (headStepA (tops, stack) e).2 = true ∧
    ((headStepA (tops, stack) e).2.length : Int) = e.1 := by
  have hmax1 : max 1 e.1 = e.1 := max_eq_right h1
  have hmaxp : max 1 e.2.2 = e.2.2 := max_eq_right hp
  rw [tocStepA, headStepA]
  dsimp only
  rw [hmax1, ht, if_neg hne, hmaxp]
  by_cases he1 : e.1 = 1
  · rw [if_pos he1, if_pos he1]
    refine ⟨rfl, ?_, ?_⟩
    · simp [levelsOK, he1, Frame.level]
    · simp [he1]
  · have he2 : 2 ≤ e.1 := by omega
    rw [if_neg he1, if_neg he1]
    have hk : (stack.takeWhile (fun f => decide (f.level ≥ e.1))).length =
        stack.length - (e.1 - 1).toNat :=
      takeWhile_len_of_levelsOK stack hlv e.1 he2
    have hpop : popToLen e.1 tops stack = popWhileGe e.1 tops stack := by
      rw [popToLen, popWhileGe, hk]
    have hlev2 : ((popWhileGe e.1 tops stack).2.map Frame.level) =
        (stack.map Frame.level).drop (stack.length - (e.1 - 1).toNat) := by
      rw [popWhileGe, hk]
      exact popN_levels _ _ _
    have hlen2 : (popWhileGe e.1 tops stack).2.length =
        stack.length - (stack.length - (e.1 - 1).toNat) := by
      have := congrArg List.length hlev2
      simpa using this
    have hlev2' : ((popWhileGe e.1 tops stack).2.map Frame.level) =
        ((stack.drop (stack.length - (e.1 - 1).toNat)).map Frame.level) := by
      rw [hlev2, List.map_drop]
    refine ⟨by rw [hpop], ?_, ?_⟩
    · rw [levelsOK, Bool.and_eq_true, beq_iff_eq]
      constructor
      · show e.1 = ((popWhileGe e.1 tops stack).2.length : Int) + 1
        rw [hlen2]
        omega
      · rw [levelsOK_congr hlev2']
        exact levelsOK_drop stack _ hlv
    · rw [List.length_cons, hlen2]
      omega

theorem fold_eq : ∀ (es : List (Int × String × Int)) (tops : List Sec)
    (stack : List Frame), levelsOK stack = true →
    noJumpsB (stack.length : Int) es = true →
    (∀ e ∈ es, pyStrip e.2.1 = e.2.1 ∧ e.2.1 ≠ "" ∧ 1 ≤ e.2.2) →
    es.foldl tocStepA (tops, stack) = es.foldl headStepA (tops, stack)
  | [], _, _, _, _, _ => rfl
  | e :: es, tops, stack, hlv, hnj, hf => by
    rw [noJumpsB, Bool.and_eq_true, Bool.and_eq_true,
      decide_eq_true_eq, decide_eq_true_eq] at hnj
    obtain ⟨⟨h1, h2⟩, hnj'⟩ := hnj
    obtain ⟨ht, hne, hp⟩ := hf e (by simp)
    obtain ⟨heq, hlv2, hlen⟩ := step_eq tops stack e hlv h1 h2 ht hne hp
    rw [List.foldl_cons, List.foldl_cons, heq]
    have hrec := fold_eq es (headStepA (tops, stack) e).1
      (headStepA (tops, stack) e).2 hlv2 (by rw [hlen]; exact hnj')
      (fun u hu => hf u (List.mem_cons_of_mem e hu))
    simpa using hrec

/-- Claim C5, amended: the outline-based and heading-based tree assemblies
coincide on every ordered entry list that starts at level 1 and never jumps
up by more than one level between consecutive entries, with titles already
stripped and nonblank and levels and pages at least 1 (the normalisations
the outline builder applies).  On such inputs the ancestor stack always
carries levels depth, ..., 1, making the outline builder's pop-by-stack-
length rule agree with the heading builder's pop-by-level rule; entry lists
that skip levels make the two builders attach nodes differently. -/
theorem builders_agree_no_level_jumps (es : List (Int × String × Int))
    (hnj : noJumpsB 0 es = true)
    (hf : ∀ e ∈ es, pyStrip e.2.1 = e.2.1 ∧ e.2.1 ≠ "" ∧ 1 ≤ e.2.2) :
    tocAssemble es = headAssemble es := by
  rw [tocAssemble, headAssemble, fold_eq es [] [] rfl (by simpa using hnj) hf]

/-- Witness for the amended C5 on a three-entry no-jump sequence. -/
theorem builders_agree_witness :
    tocAssemble [(1, "A", 1), (2, "B", 1), (2, "C", 2)] =
      headAssemble [(1, "A", 1), (2, "B", 1), (2, "C", 2)] :=
  builders_agree_no_level_jumps [(1, "A", 1), (2, "B", 1), (2, "C", 2)]
    (by decide) (by decide)

/-! ### Claim C7: determinism and cross-invocation state -/

theorem createDocSecs_fst (cfg : Config) (x : PdfInput)
    (tbp : List (List Block)) (t : PState) :
    (createDocSecs cfg x tbp t).1 =
      ⟨(cfg.useToc && !x.toc.isEmpty) || t.tocAvailable, t.fontStats,
        t.headingCands⟩ := rfl

theorem createDocSecs_snd_congr (cfg : Config) (x : PdfInput)
    (tbp : List (List Block)) {t1 t2 : PState}
    (hta : ((cfg.useToc && !x.toc.isEmpty) || t1.tocAvailable) =
      ((cfg.useToc && !x.toc.isEmpty) || t2.tocAvailable))
    (hhc : t1.headingCands = t2.headingCands) :
    (createDocSecs cfg x tbp t1).2 = (createDocSecs cfg x tbp t2).2 := by
  rw [createDocSecs, createDocSecs]
  dsimp only
  rw [hhc, hta]

/-- Applying the analyze step to an already-analyzed state (with its
toc_available flag possibly or-ed by the structure step) changes nothing:
with no text the early return leaves the state alone, and otherwise the
recomputed statistics and candidates coincide with the stored ones. -/
theorem analyzeStep_idem (cfg : Config) (tbp : List (List Block)) (b : Bool)
    (t : PState) :
    analyzeStep cfg tbp
      ⟨b || (analyzeStep cfg tbp t).tocAvailable,
        (analyzeStep cfg tbp t).fontStats,
        (analyzeStep cfg tbp t).headingCands⟩ =
    ⟨b || (analyzeStep cfg tbp t).tocAvailable,
      (analyzeStep cfg tbp t).fontStats,
      (analyzeStep cfg tbp t).headingCands⟩ := by
  by_cases hdh : cfg.detectHeadings
  · rw [analyzeStep, if_pos hdh, analyzeStep, if_pos hdh]
    by_cases hE : ((tbp.flatten).isEmpty : Bool)
    · rw [analyzeFont, if_pos hE]
    · rw [analyzeFont, if_neg hE, analyzeFont, if_neg hE]
  · rw [analyzeStep, if_neg hdh]

/-- Claim C7: for every configuration, every input primitive set and every
prior parser state, running parse twice on the identical input yields
structurally identical Documents: every observable attribute carried across
invocations (toc_available, font_stats, heading_candidates) is either
recomputed from the input or read with the same value it had during the
first run, so the second parse's output equals the first's.  This holds
from any prior state, covering parses of other documents before the
pair. -/
theorem parse_deterministic (cfg : Config) (x : PdfInput) (s : PState) :
    docOf (parseRun cfg x (nextState cfg x s)) = docOf (parseRun cfg x s) := by
  rcases hv : validateInput x with e | u
  · have h1 : parseRun cfg x s = .error e := by rw [parseRun, hv]
    have h2 : nextState cfg x s = s := by rw [nextState, h1]
    rw [h2]
  · have hrun : ∀ t : PState, parseRun cfg x t = .ok
        (⟨if cfg.extractTitle then extractDocTitle x else x.fileName,
          (x.pageCount : Int),
          if cfg.detectTables then
            extractTablesDoc x (createDocSecs cfg x (extractAllBlocks x)
              (analyzeStep cfg (extractAllBlocks x) t)).2
          else
            (createDocSecs cfg x (extractAllBlocks x)
              (analyzeStep cfg (extractAllBlocks x) t)).2⟩,
         (createDocSecs cfg x (extractAllBlocks x)
            (analyzeStep cfg (extractAllBlocks x) t)).1) := by
      intro t
      rw [parseRun, hv]
    have hnext : nextState cfg x s =
        ⟨(cfg.useToc && !x.toc.isEmpty) ||
            (analyzeStep cfg (extractAllBlocks x) s).tocAvailable,
          (analyzeStep cfg (extractAllBlocks x) s).fontStats,
          (analyzeStep cfg (extractAllBlocks x) s).headingCands⟩ := by
      rw [nextState, hrun s]
      rfl
    have hkey := analyzeStep_idem cfg (extractAllBlocks x)
      (cfg.useToc && !x.toc.isEmpty) s
    rw [hrun (nextState cfg x s), hrun s, hnext, hkey]
    have hsnd : (createDocSecs cfg x (extractAllBlocks x)
        ⟨(cfg.useToc && !x.toc.isEmpty) ||
            (analyzeStep cfg (extractAllBlocks x) s).tocAvailable,
          (analyzeStep cfg (extractAllBlocks x) s).fontStats,
          (analyzeStep cfg (extractAllBlocks x) s).headingCands⟩).2 =
        (createDocSecs cfg x (extractAllBlocks x)
          (analyzeStep cfg (extractAllBlocks x) s)).2 := by
      refine createDocSecs_snd_congr cfg x _ ?_ rfl
      show ((cfg.useToc && !x.toc.isEmpty) ||
          ((cfg.useToc && !x.toc.isEmpty) ||
            (analyzeStep cfg (extractAllBlocks x) s).tocAvailable)) = _
      rw [← Bool.or_assoc, Bool.or_self]
    rw [hsnd]
    rfl

end PdfParse

